import Mathlib

/-!
# Verification of the snailnote_node integrity core

A shallow embedding, in Lean 4, of the modular-arithmetic primitives in
`src/ecdsa/src/secp256k1/math.rs` and of the `Block` type and its operations in
`src/rblock/src/block/block.rs`, together with theorems settling the spec's
claims about them.

Conventions of the embedding:
* Rust `BigInt` is `ℤ`.  Rust's `%` on `BigInt` is truncated remainder
  (sign of the dividend), which is `Int.tmod`; Rust's `/` on `BigInt` is
  truncated division, which is `Int.tdiv`.
* Rust `u32`/`u64`/`usize` values are `Nat`s; the operations below only ever
  produce values in range, and where the 32-bit bound matters
  (`u32::MAX`, difficulty words) it appears explicitly.
* The external collaborators that the block core only calls through a narrow
  contract — the SHA-256 digest (`sha256::hash`), the Merkle-root utility
  (`functions::get_merkel_root`) and the clock (`functions::get_unix_time`) —
  are not part of the two source files; operations take them as explicit
  parameters (`digest`, `merkel`, `now`), so every theorem below holds for
  every choice of these collaborators.
* Rust functions that can panic are embedded with result type `Option _`,
  `none` standing for the panic.
-/

/-! ## `src/ecdsa/src/secp256k1/math.rs` -/

/-- `modulo` from `math.rs`:
`pub fn modulo(x, m) = ((x % m) + m) % m` with Rust's truncated `%`. -/
def modulo (x m : ℤ) : ℤ :=
  (x.tmod m + m).tmod m

/-- `modular_multiplicative_inverse` from `math.rs`, with the `Option`
coefficient seeds already unwrapped into plain arguments (the defaulted call
passes `t1 = 1`, `t2 = 0`, `s1 = 0`, `s2 = 1`).

The Rust recursion computes `q` and `r` from the pair `(n, b)`, updates one
coefficient pair, returns `t1` as soon as `n` or `b` is zero, and otherwise
recurses.  The recursion is well-founded only for positive operands (which is
the only domain any claim speaks about, and the only domain on which the Rust
code terminates without a division-by-zero panic); the embedding guards on
`0 < n ∧ 0 < b` and returns the current `t1` outside that domain. -/
def modular_multiplicative_inverse (n b t1 t2 s1 s2 : ℤ) : ℤ :=
  if hpos : 0 < n ∧ 0 < b then
    if hlt : n < b then
      -- q = b / n, r = modulo(b, n); b ← r; s-pair updated; then zero test
      if hz : n = 0 ∨ modulo b n = 0 then t1
      else
        modular_multiplicative_inverse n (modulo b n) t1 t2
          (s1 - t1 * b.tdiv n) (s2 - t2 * b.tdiv n)
    else
      -- q = n / b, r = modulo(n, b); n ← r; t-pair updated; then zero test
      if hz : modulo n b = 0 ∨ b = 0 then t1 - s1 * n.tdiv b
      else
        modular_multiplicative_inverse (modulo n b) b
          (t1 - s1 * n.tdiv b) (t2 - s2 * n.tdiv b) s1 s2
  else t1
termination_by n.natAbs + b.natAbs
decreasing_by
  · obtain ⟨hn, hb⟩ := hpos
    have e1 : Int.tmod b n = b % n := Int.tmod_eq_emod (by omega) (by omega)
    have e2 : Int.tmod (b % n + n) n = (b % n + n) % n := by
      have : 0 ≤ b % n := Int.emod_nonneg b (by omega)
      exact Int.tmod_eq_emod (by omega) (by omega)
    simp only [modulo, e1, e2] at hz ⊢
    have h1 : 0 ≤ (b % n + n) % n := Int.emod_nonneg _ (by omega)
    have h2 : (b % n + n) % n < n := Int.emod_lt_of_pos _ (by omega)
    omega
  · obtain ⟨hn, hb⟩ := hpos
    have e1 : Int.tmod n b = n % b := Int.tmod_eq_emod (by omega) (by omega)
    have e2 : Int.tmod (n % b + b) b = (n % b + b) % b := by
      have : 0 ≤ n % b := Int.emod_nonneg n (by omega)
      exact Int.tmod_eq_emod (by omega) (by omega)
    simp only [modulo, e1, e2] at hz ⊢
    have h1 : 0 ≤ (n % b + b) % b := Int.emod_nonneg _ (by omega)
    have h2 : (n % b + b) % b < b := Int.emod_lt_of_pos _ (by omega)
    omega

/-- The defaulted entry point: `modular_multiplicative_inverse(n, b, None,
None, None, None)`, i.e. seeds `t1 = 1`, `t2 = 0`, `s1 = 0`, `s2 = 1`. -/
def modular_inverse (n b : ℤ) : ℤ :=
  modular_multiplicative_inverse n b 1 0 0 1

/-! ## The transaction contract

`Transaction` lives in `src/rblock/src/transaction`, outside the two source
files embedded here; `block.rs` uses it only through the narrow contract the
spec states. -/

/-- Modelled from the spec: the sender of a transaction is "a public-key-like
identity, with one reserved identity value meaning no real sender — mining
reward" (`Point::identity()` in the code). -/
inductive Sender where
  | identity : Sender
  | real : Nat → Sender
deriving DecidableEq

/-- Modelled from the spec: a `Transaction` exposes `get_sender()` (the
`sender` field below), a recipient, and a signature-check predicate
`verify()` whose verdict the block core treats as opaque (the `sigValid`
field below records it). -/
structure Transaction where
  sender : Sender
  recipient : Nat
  sigValid : Bool
deriving DecidableEq

/-- Modelled from the spec: `Transaction.verify() → bool`. -/
def Transaction.verify (t : Transaction) : Bool :=
  t.sigValid

/-- Modelled from the spec: `Transaction::reward_transaction(address)`
"constructs a transaction with sender = identity sentinel and recipient =
address, unsigned" (so its own signature check does not pass). -/
def Transaction.reward_transaction (miner_address : Nat) : Transaction :=
  { sender := Sender.identity, recipient := miner_address, sigValid := false }

/-! ## `src/rblock/src/block/block.rs` -/

/-- `TRANSACTION_LIMIT_PER_BLOCK` from `src/rblock/src/lib.rs`. -/
def TRANSACTION_LIMIT_PER_BLOCK : Nat := 5000

/-- `u32::MAX`. -/
def u32MAX : Nat := 4294967295

/-- The `Block` struct from `block.rs`.  `nonce` and `difficulty` are `u32`
in Rust; every operation below keeps `nonce ≤ u32MAX` when it starts there. -/
structure Block where
  height : Nat
  hash : String
  timestamp : Nat
  prev_hash : String
  nonce : Nat
  difficulty : Nat
  merkel_root : String
  transactions : List Transaction
deriving DecidableEq

/-- `get_hash` from `block.rs`. -/
def Block.get_hash (b : Block) : String :=
  b.hash

/-- `get_message` from `block.rs`:
`format!("{}{}{}{}{}{}", height, timestamp, prev_hash, nonce, difficulty,
merkel_root)`. -/
def Block.get_message (b : Block) : String :=
  toString b.height ++ toString b.timestamp ++ b.prev_hash
    ++ toString b.nonce ++ toString b.difficulty ++ b.merkel_root

/-- `set_hash` from `block.rs`: `self.hash = hash(self.get_message())`.
`digest` is the external `sha256::hash` collaborator. -/
def Block.set_hash (digest : String → String) (b : Block) : Block :=
  { b with hash := digest b.get_message }

/-- `verify_hash` from `block.rs`. -/
def Block.verify_hash (digest : String → String) (b : Block) : Bool :=
  b.get_hash == digest b.get_message

/-- `new_genesis` from `block.rs`.  `now` is the external
`functions::get_unix_time()` collaborator's value. -/
def Block.new_genesis (digest : String → String) (now : Nat) : Block :=
  Block.set_hash digest
    { height := 0
      hash := ""
      timestamp := now
      nonce := 0
      difficulty := 0xffffffff
      prev_hash := ""
      merkel_root := ""
      transactions := [] }

/-- `new` from `block.rs`.  `merkel` is the external
`functions::get_merkel_root` collaborator. -/
def Block.new (digest : String → String) (merkel : List Transaction → String)
    (now : Nat) (prev_block : Block) (transactions : List Transaction) : Block :=
  Block.set_hash digest
    { height := prev_block.height + 1
      hash := ""
      timestamp := now
      nonce := 0
      difficulty := prev_block.difficulty
      prev_hash := prev_block.hash
      merkel_root := merkel transactions
      transactions := transactions }

/-- `reward_miner` from `block.rs`: scans for an existing transaction whose
sender is the identity sentinel; if one exists it only prints a diagnostic and
returns, otherwise it pushes the reward transaction, recomputes the Merkle
root over the extended list, and rehashes. -/
def Block.reward_miner (digest : String → String)
    (merkel : List Transaction → String) (miner_address : Nat) (b : Block) :
    Block :=
  if b.transactions.any (fun t => t.sender == Sender.identity) then b
  else
    Block.set_hash digest
      { b with
        transactions := b.transactions ++ [Transaction.reward_transaction miner_address]
        merkel_root := merkel (b.transactions ++ [Transaction.reward_transaction miner_address]) }

/-- `set_difficulty` from `block.rs`. -/
def Block.set_difficulty (digest : String → String) (diff : Nat) (b : Block) :
    Block :=
  Block.set_hash digest { b with difficulty := diff }

/-- `increment_and_hash` from `block.rs`: returns unchanged (after a
diagnostic print) when `nonce == u32::MAX`, otherwise increments the nonce and
rehashes. -/
def Block.increment_and_hash (digest : String → String) (b : Block) : Block :=
  if b.nonce == u32MAX then b
  else Block.set_hash digest { b with nonce := b.nonce + 1 }

/-- `verify_transactions` from `block.rs`: rejects when the count exceeds
`TRANSACTION_LIMIT_PER_BLOCK`; otherwise every transaction must either have
the identity sender (miner reward, exempt) or pass `verify()`. -/
def Block.verify_transactions (b : Block) : Bool :=
  if b.transactions.length > TRANSACTION_LIMIT_PER_BLOCK then false
  else b.transactions.all fun t => t.sender == Sender.identity || t.verify

/-- The nibble comparison loop of `verify_difficulty`:
`for i in (0..=28).step_by(4)`, compare `(hash_u32 >> i) & 0xf` with
`(difficulty >> i) & 0xf` (`x & 0xf` is `x % 16`). -/
def checkNibbles (hash_u32 difficulty : Nat) : Bool :=
  [0, 4, 8, 12, 16, 20, 24, 28].all fun i =>
    decide ((hash_u32 >>> i) % 16 ≤ (difficulty >>> i) % 16)

/-- The value of one hexadecimal digit character, as accepted by Rust's
`u32::from_str_radix(_, 16)`: `0-9`, `a-f`, `A-F`. -/
def hexDigitVal (c : Char) : Option Nat :=
  if '0' ≤ c ∧ c ≤ '9' then some (c.toNat - '0'.toNat)
  else if 'a' ≤ c ∧ c ≤ 'f' then some (c.toNat - 'a'.toNat + 10)
  else if 'A' ≤ c ∧ c ≤ 'F' then some (c.toNat - 'A'.toNat + 10)
  else none

/-- `u32::from_str_radix(s, 16)` on a character sequence: an optional leading
`'+'` sign, then at least one hex digit, read most-significant first
(big-endian).  A `'-'` sign, an empty input, a bare sign and any non-digit all
yield `Err` (`none`).  `verify_difficulty` only ever applies this to exactly 8
characters, whose value is at most `0xFFFFFFFF = u32::MAX`, so the `u32`
overflow check of `from_str_radix` can never fire and is not modelled. -/
def from_str_radix_16 (s : List Char) : Option Nat :=
  match s with
  | [] => none
  | c :: rest =>
    let digits := if c = '+' then rest else c :: rest
    if digits.isEmpty then none
    else
      digits.foldl
        (fun acc c => acc.bind fun v => (hexDigitVal c).map fun d => 16 * v + d)
        (some 0)

/-- The numeric value of a hex-digit sequence (used to state what
`from_str_radix_16` returns on all-digit input). -/
def hexVal (s : List Char) : Nat :=
  s.foldl (fun v c => 16 * v + (hexDigitVal c).getD 0) 0

/-- `verify_difficulty` from `block.rs`.  The Rust function panics when the
string is shorter than 8 bytes (slice-bound underflow) and when
`from_str_radix` fails (`unwrap`); both panics are the `none` result. -/
def verify_difficulty (hash : String) (difficulty : Nat) : Option Bool :=
  if hash.data.length < 8 then none
  else
    match from_str_radix_16 (hash.data.drop (hash.data.length - 8)) with
    | none => none
    | some hash_u32 => some (checkNibbles hash_u32 difficulty)

/-- The number of transactions in a list whose sender is the identity
sentinel (the miner-reward marker). -/
def countIdentity (l : List Transaction) : Nat :=
  (l.filter fun t => t.sender == Sender.identity).length

/-- The blocks produced by the public constructors and mutators of `Block`:
`new_genesis`, `new`, `reward_miner`, `set_difficulty`,
`increment_and_hash`, over arbitrary times, transaction lists, difficulties
and miner addresses. -/
inductive Produced (digest : String → String)
    (merkel : List Transaction → String) : Block → Prop where
  | genesis (now : Nat) :
      Produced digest merkel (Block.new_genesis digest now)
  | new (now : Nat) (prev : Block) (txs : List Transaction)
      (hp : Produced digest merkel prev) :
      Produced digest merkel (Block.new digest merkel now prev txs)
  | reward (addr : Nat) (b : Block) (hb : Produced digest merkel b) :
      Produced digest merkel (Block.reward_miner digest merkel addr b)
  | diff (d : Nat) (b : Block) (hb : Produced digest merkel b) :
      Produced digest merkel (Block.set_difficulty digest d b)
  | inc (b : Block) (hb : Produced digest merkel b) :
      Produced digest merkel (Block.increment_and_hash digest b)

/-- A concrete digest collaborator, used to instantiate universally
quantified theorems on closed inputs. -/
def digest0 : String → String := fun _ => "d"

/-- A concrete Merkle-root collaborator, used to instantiate universally
quantified theorems on closed inputs. -/
def merkel0 : List Transaction → String := fun _ => "m"

/-- A concrete ordinary (non-reward) transaction with a valid signature. -/
def txReal : Transaction :=
  { sender := Sender.real 1, recipient := 2, sigValid := true }

/-- A concrete block with nonce `0`, used to instantiate theorems. -/
def blockA : Block :=
  { height := 1, hash := "h", timestamp := 2, prev_hash := "p", nonce := 0,
    difficulty := 3, merkel_root := "r", transactions := [] }

/-- A concrete block whose nonce sits at `u32::MAX`. -/
def blockMax : Block :=
  { height := 1, hash := "h", timestamp := 2, prev_hash := "p",
    nonce := u32MAX, difficulty := 3, merkel_root := "r", transactions := [] }

/-- A concrete block with 5001 transactions, one over the per-block limit. -/
def blockBig : Block :=
  { height := 1, hash := "h", timestamp := 2, prev_hash := "p", nonce := 0,
    difficulty := 3, merkel_root := "r",
    transactions := List.replicate 5001 txReal }

/-! ## Helper lemmas -/

/-- Truncated remainder by a positive modulus is greater than `-m`. -/
theorem tmod_lower_bound (x m : ℤ) (hm : 0 < m) : -m < x.tmod m := by
  rcases le_or_lt 0 x with hx | hx
  · have := Int.tmod_nonneg m hx
    omega
  · have hneg : x.tmod m = -((-x).tmod m) := by
      rw [Int.tmod_def, Int.tmod_def, Int.neg_tdiv]
      ring
    have := Int.tmod_lt_of_pos (-x) hm
    omega

/-- For a positive modulus, the source's `modulo` agrees with the
mathematical (Euclidean) remainder. -/
theorem modulo_eq_emod (x m : ℤ) (hm : 0 < m) : modulo x m = x % m := by
  have h1 : -m < x.tmod m := tmod_lower_bound x m hm
  have h2 : 0 ≤ x.tmod m + m := by omega
  unfold modulo
  rw [Int.tmod_eq_emod h2 (le_of_lt hm), Int.tmod_def]
  have h3 : x - m * x.tdiv m + m = x + m * (1 - x.tdiv m) := by ring
  rw [h3, Int.add_mul_emod_self_left]

/-- `set_hash` does not change the hashed message (the hash field is not part
of the message). -/
theorem get_message_set_hash (digest : String → String) (b : Block) :
    (Block.set_hash digest b).get_message = b.get_message := rfl

/-- A block that has just been rehashed satisfies `verify_hash`. -/
theorem verify_hash_set_hash (digest : String → String) (b : Block) :
    (Block.set_hash digest b).verify_hash digest = true := by
  simp [Block.verify_hash, Block.get_hash, Block.set_hash, Block.get_message]

/-- On all-hex-digit input the `from_str_radix` fold succeeds with the
big-endian value of the digits. -/
theorem foldl_hex_eq_some (l : List Char) (a : Nat)
    (h : ∀ c ∈ l, (hexDigitVal c).isSome) :
    l.foldl (fun acc c => acc.bind fun v => (hexDigitVal c).map fun d => 16 * v + d)
        (some a)
      = some (l.foldl (fun v c => 16 * v + (hexDigitVal c).getD 0) a) := by
  induction l generalizing a with
  | nil => rfl
  | cons c rest ih =>
    obtain ⟨d, hd⟩ := Option.isSome_iff_exists.mp (h c (List.mem_cons_self c rest))
    simp only [List.foldl_cons, Option.bind_some, hd, Option.map_some, Option.getD_some]
    exact ih (16 * a + d) fun x hx => h x (List.mem_cons_of_mem c hx)

/-- `from_str_radix_16` on a nonempty all-hex-digit sequence returns its
big-endian value. -/
theorem from_str_radix_16_all_hex (s : List Char) (hne : s ≠ [])
    (hhex : ∀ c ∈ s, (hexDigitVal c).isSome) :
    from_str_radix_16 s = some (hexVal s) := by
  match s, hne with
  | c :: rest, _ =>
    have hc : (hexDigitVal c).isSome := hhex c (List.mem_cons_self c rest)
    have hplus : c ≠ '+' := by
      intro h
      rw [h] at hc
      simp [hexDigitVal] at hc
    unfold from_str_radix_16
    simp only [hplus, if_false, List.isEmpty_cons, Bool.false_eq_true]
    exact foldl_hex_eq_some (c :: rest) 0 hhex

/-- The hash nibble test passes against the all-ones difficulty word. -/
theorem checkNibbles_max (v : Nat) : checkNibbles v 0xffffffff = true := by
  simp only [checkNibbles, List.all_cons, List.all_nil, Bool.and_eq_true,
    decide_eq_true_eq, Nat.shiftRight_eq_div_pow]
  norm_num
  omega

/-- A list holds an identity-sender transaction iff `countIdentity` is
positive. -/
theorem any_identity_iff (l : List Transaction) :
    l.any (fun t => t.sender == Sender.identity) = true ↔ 0 < countIdentity l := by
  rw [countIdentity, ← List.countP_eq_length_filter, List.countP_pos_iff,
    List.any_eq_true]

/-- Appending the reward transaction adds exactly one identity sender. -/
theorem countIdentity_append_reward (l : List Transaction) (addr : Nat) :
    countIdentity (l ++ [Transaction.reward_transaction addr])
      = countIdentity l + 1 := by
  simp [countIdentity, List.filter_append, Transaction.reward_transaction]

/-! ## Claims about `math.rs` -/

/-- Claim C1, evaluated at the failing input `(n, b) = (2, 3)`: the claim says
that for coprime positive `(n, b)` with `b > 1` the defaulted
`modular_multiplicative_inverse` returns `t` with `(n * t) mod b = 1`.  The
code returns `t1` unconditionally, which is the Bezout coefficient of the
`n`-side; that is correct only when the remainder sequence zeroes on the
`b`-side.  At `(2, 3)` (coprime, `b > 1`) the `n`-side zeroes: the function
returns `3`, and `(2 * 3) mod 3 = 0 ≠ 1` — against the code's own doc comment,
which promises the modular multiplicative inverse. -/
theorem C1_inverse_bug_eval :
    Int.gcd 2 3 = 1 ∧ modular_inverse 2 3 = 3 ∧ modulo (2 * 3) 3 = 0 := by
  refine ⟨by decide, ?_, by decide⟩
  have m1 : modulo 3 2 = 1 := by decide
  have m2 : modulo 2 1 = 0 := by decide
  have d1 : Int.tdiv 3 2 = 1 := by decide
  have d2 : Int.tdiv 2 1 = 2 := by decide
  unfold modular_inverse
  rw [modular_multiplicative_inverse]
  norm_num [m1, d1]
  rw [modular_multiplicative_inverse]
  norm_num [m2, d2]

/-- Claim C7: for every integer `x` (including negative `x`) and every
positive `m`, `modulo(x, m)` is in `[0, m)` and is congruent to `x`
modulo `m`. -/
theorem C7_modulo_range_congruence (x m : ℤ) (hm : 0 < m) :
    0 ≤ modulo x m ∧ modulo x m < m ∧ modulo x m ≡ x [ZMOD m] := by
  rw [modulo_eq_emod x m hm]
  refine ⟨Int.emod_nonneg x (by omega), Int.emod_lt_of_pos x hm, ?_⟩
  unfold Int.ModEq
  exact Int.emod_emod_of_dvd x dvd_rfl

/-- Claim C7 witness at `x = -21`, `m = 4` (the example in the source's doc
comment: `-21 mod 4 = 3`). -/
theorem C7_witness :
    0 ≤ modulo (-21) 4 ∧ modulo (-21) 4 < 4 ∧ modulo (-21) 4 ≡ -21 [ZMOD 4] :=
  C7_modulo_range_congruence (-21) 4 (by decide)

/-- Claim C5 counterexample at the non-coprime input `(n, b) = (2, 4)`: the
claim says `modular_multiplicative_inverse` fails with a `DomainError` rather
than returning a value.  The Rust function's return type is a plain `BigInt`
(embedded as a total `ℤ`-valued function): it has no error path at all, and at
`(2, 4)` it silently returns `1`, which is not an inverse
(`(2 * 1) mod 4 = 2 ≠ 1`). -/
theorem C5_counterexample :
    Int.gcd 2 4 ≠ 1 ∧ modular_inverse 2 4 = 1 ∧ modulo (2 * 1) 4 ≠ 1 := by
  refine ⟨by decide, ?_, by decide⟩
  have m1 : modulo 4 2 = 0 := by decide
  unfold modular_inverse
  rw [modular_multiplicative_inverse]
  norm_num [m1]

/-- Claim C5 amended: for positive non-coprime `(n, b)` the function does not
surface any error — it always returns an integer — and the returned value is
never a modular inverse: `(n * t) mod b ≠ 1` for the returned `t` (indeed no
inverse exists when `gcd(n, b) ≠ 1`). -/
theorem C5_amended_never_inverse (n b : ℤ) (hn : 0 < n) (hb : 0 < b)
    (hg : Int.gcd n b ≠ 1) :
    modulo (n * modular_inverse n b) b ≠ 1 := by
  intro hmod
  rw [modulo_eq_emod _ b hb] at hmod
  have hb1 : 1 < b := by
    rcases eq_or_lt_of_le hb with h | h
    · exact absurd (by rw [← h]; simp) hg
    · exact h
  have hdvd : b ∣ n * modular_inverse n b - 1 := by
    apply Int.dvd_of_emod_eq_zero
    rw [Int.sub_emod, hmod, Int.emod_eq_of_lt (by omega) hb1]
    simp
  have hgn : (Int.gcd n b : ℤ) ∣ n := Int.gcd_dvd_left
  have hgb : (Int.gcd n b : ℤ) ∣ b := Int.gcd_dvd_right
  have h1 : (Int.gcd n b : ℤ) ∣ n * modular_inverse n b :=
    hgn.mul_right (modular_inverse n b)
  have h2 : (Int.gcd n b : ℤ) ∣ n * modular_inverse n b - 1 := hgb.trans hdvd
  have h3 : (Int.gcd n b : ℤ) ∣ 1 := by
    have := dvd_sub h1 h2
    simpa using this
  have h4 : Int.gcd n b ∣ 1 := by exact_mod_cast h3
  exact hg (Nat.dvd_one.mp h4)

/-- Claim C5 witness at `(2, 4)`. -/
theorem C5_witness : modulo (2 * modular_inverse 2 4) 4 ≠ 1 :=
  C5_amended_never_inverse 2 4 (by decide) (by decide) (by decide)

/-! ## Claims about `block.rs` -/

/-- Claim C2: every block produced by the public constructors and mutators
(`new_genesis`, `new`, `reward_miner`, `set_difficulty`,
`increment_and_hash`) stores as `hash` exactly the digest of its canonical
message (height, timestamp, prev_hash, nonce, difficulty, merkel_root);
equivalently, `verify_hash()` returns `true` on it. -/
theorem C2_produced_hash_invariant (digest : String → String)
    (merkel : List Transaction → String) (b : Block)
    (h : Produced digest merkel b) :
    b.hash = digest b.get_message ∧ b.verify_hash digest = true := by
  induction h with
  | genesis now => exact ⟨rfl, verify_hash_set_hash _ _⟩
  | new now prev txs hp ih => exact ⟨rfl, verify_hash_set_hash _ _⟩
  | reward addr b hb ih =>
    by_cases hany :
        b.transactions.any (fun t => t.sender == Sender.identity) = true
    · simpa [Block.reward_miner, hany] using ih
    · simp only [Block.reward_miner, hany, if_false, Bool.false_eq_true]
      exact ⟨rfl, verify_hash_set_hash _ _⟩
  | diff d b hb ih => exact ⟨rfl, verify_hash_set_hash _ _⟩
  | inc b hb ih =>
    by_cases hmax : (b.nonce == u32MAX) = true
    · simpa [Block.increment_and_hash, hmax] using ih
    · simp only [Block.increment_and_hash, hmax, if_false, Bool.false_eq_true]
      exact ⟨rfl, verify_hash_set_hash _ _⟩

/-- Claim C2 witness: the hash invariant at the concrete genesis block for
the concrete digest collaborator. -/
theorem C2_witness :
    (Block.new_genesis digest0 0).hash
        = digest0 (Block.new_genesis digest0 0).get_message ∧
    (Block.new_genesis digest0 0).verify_hash digest0 = true :=
  C2_produced_hash_invariant digest0 merkel0 _ (Produced.genesis 0)

/-- Claim C4: `verify_transactions()` returns `false` whenever the list holds
more than `TRANSACTION_LIMIT_PER_BLOCK = 5000` transactions, regardless of
their validity; otherwise it returns `true` exactly when every transaction
whose sender is not the identity sentinel passes `verify()`. -/
theorem C4_verify_transactions_limit_and_signatures (b : Block) :
    (TRANSACTION_LIMIT_PER_BLOCK < b.transactions.length →
      b.verify_transactions = false) ∧
    (b.transactions.length ≤ TRANSACTION_LIMIT_PER_BLOCK →
      (b.verify_transactions = true ↔
        ∀ t ∈ b.transactions, t.sender ≠ Sender.identity → t.verify = true)) := by
  constructor
  · intro hlen
    unfold Block.verify_transactions
    rw [if_pos hlen]
  · intro hlen
    unfold Block.verify_transactions
    rw [if_neg (by omega), List.all_eq_true]
    simp only [Bool.or_eq_true, beq_iff_eq]
    constructor
    · intro h t ht hs
      rcases h t ht with h1 | h1
      · exact absurd h1 hs
      · exact h1
    · intro h t ht
      by_cases hs : t.sender = Sender.identity
      · exact Or.inl hs
      · exact Or.inr (h t ht hs)

/-- Claim C4 witness: a block with 5001 transactions fails
`verify_transactions()` regardless of their individual validity, and on an
in-limit block the verdict matches the per-transaction condition. -/
theorem C4_witness :
    blockBig.verify_transactions = false ∧
    (blockA.verify_transactions = true ↔
      ∀ t ∈ blockA.transactions, t.sender ≠ Sender.identity → t.verify = true) :=
  ⟨(C4_verify_transactions_limit_and_signatures blockBig).1
      (by
        show TRANSACTION_LIMIT_PER_BLOCK < (List.replicate 5001 txReal).length
        rw [List.length_replicate]
        norm_num [TRANSACTION_LIMIT_PER_BLOCK]),
   (C4_verify_transactions_limit_and_signatures blockA).2 (by decide)⟩

/-- Claim C6: when the nonce is strictly below `u32::MAX`,
`increment_and_hash()` increments the nonce by exactly 1 and recomputes the
hash over the new canonical message, leaving every other field unchanged;
when the nonce equals `u32::MAX` it reports exhaustion and leaves the whole
block unchanged. -/
theorem C6_increment_and_hash_spec (digest : String → String) (b : Block) :
    (b.nonce < u32MAX →
      (Block.increment_and_hash digest b).nonce = b.nonce + 1 ∧
      (Block.increment_and_hash digest b).hash
        = digest (Block.get_message { b with nonce := b.nonce + 1 }) ∧
      (Block.increment_and_hash digest b).height = b.height ∧
      (Block.increment_and_hash digest b).timestamp = b.timestamp ∧
      (Block.increment_and_hash digest b).prev_hash = b.prev_hash ∧
      (Block.increment_and_hash digest b).difficulty = b.difficulty ∧
      (Block.increment_and_hash digest b).merkel_root = b.merkel_root ∧
      (Block.increment_and_hash digest b).transactions = b.transactions) ∧
    (b.nonce = u32MAX → Block.increment_and_hash digest b = b) := by
  constructor
  · intro hlt
    have hne : (b.nonce == u32MAX) = false := by
      simp only [beq_eq_false_iff_ne, ne_eq]
      omega
    simp [Block.increment_and_hash, hne, Block.set_hash]
  · intro heq
    simp [Block.increment_and_hash, heq]

/-- Claim C6 witness: at a concrete block with nonce `0` the mining step
increments and rehashes; at a concrete block with nonce `u32::MAX` it is the
identity. -/
theorem C6_witness :
    (Block.increment_and_hash digest0 blockA).nonce = blockA.nonce + 1 ∧
    Block.increment_and_hash digest0 blockMax = blockMax :=
  ⟨((C6_increment_and_hash_spec digest0 blockA).1 (by decide)).1,
   (C6_increment_and_hash_spec digest0 blockMax).2 (by decide)⟩

/-- Claim C8 counterexample: the claim ends "every operation preserves the
invariant that at most one transaction per block has the identity sender",
but the public constructor `Block::new` stores the caller's transaction list
verbatim: applied to the genesis block (which satisfies the invariant with
zero identity senders) and a list holding the reward transaction twice, it
produces a block with two identity-sender transactions. -/
theorem C8_counterexample :
    countIdentity (Block.new digest0 merkel0 0 (Block.new_genesis digest0 0)
        [Transaction.reward_transaction 7,
         Transaction.reward_transaction 7]).transactions = 2 ∧
    countIdentity (Block.new_genesis digest0 0).transactions = 0 := by
  constructor <;> rfl

/-- Claim C8 amended: `reward_miner` appends exactly one identity-sender
transaction when none is present and is a no-op when one is already present,
so any positive number of `reward_miner` calls on an initially reward-free
block leaves exactly one identity-sender transaction; the mutators
`reward_miner`, `set_difficulty` and `increment_and_hash` preserve the
at-most-one-identity-sender invariant (the constructor `Block::new`, however,
copies its transaction-list argument verbatim and therefore does not). -/
theorem C8_amended_reward_miner (digest : String → String)
    (merkel : List Transaction → String) (addr d : Nat) (b : Block) :
    (countIdentity b.transactions = 0 →
      (Block.reward_miner digest merkel addr b).transactions
          = b.transactions ++ [Transaction.reward_transaction addr] ∧
      ∀ k, countIdentity
          ((Block.reward_miner digest merkel addr)^[k + 1] b).transactions = 1) ∧
    (0 < countIdentity b.transactions →
      Block.reward_miner digest merkel addr b = b) ∧
    (countIdentity b.transactions ≤ 1 →
      countIdentity (Block.reward_miner digest merkel addr b).transactions ≤ 1) ∧
    (Block.set_difficulty digest d b).transactions = b.transactions ∧
    (Block.increment_and_hash digest b).transactions = b.transactions := by
  have hnoop : ∀ x : Block, 0 < countIdentity x.transactions →
      Block.reward_miner digest merkel addr x = x := by
    intro x hx
    unfold Block.reward_miner
    rw [if_pos ((any_identity_iff x.transactions).mpr hx)]
  have happend : ∀ x : Block, countIdentity x.transactions = 0 →
      (Block.reward_miner digest merkel addr x).transactions
        = x.transactions ++ [Transaction.reward_transaction addr] := by
    intro x hx
    unfold Block.reward_miner
    have hno : ¬ (x.transactions.any (fun t => t.sender == Sender.identity) = true) := by
      rw [any_identity_iff]
      omega
    rw [if_neg hno]
    rfl
  have hone : ∀ x : Block, countIdentity x.transactions = 0 →
      countIdentity (Block.reward_miner digest merkel addr x).transactions = 1 := by
    intro x hx
    rw [happend x hx, countIdentity_append_reward, hx]
  refine ⟨fun h0 => ⟨happend b h0, ?_⟩, hnoop b, ?_, rfl, ?_⟩
  · intro k
    induction k with
    | zero => simpa using hone b h0
    | succ k ih =>
      rw [Function.iterate_succ_apply', hnoop _ (by rw [ih]; norm_num)]
      exact ih
  · intro hle
    rcases Nat.eq_zero_or_pos (countIdentity b.transactions) with h0 | hpos
    · rw [hone b h0]
    · rw [hnoop b hpos]
      exact hle
  · unfold Block.increment_and_hash
    split <;> rfl

/-- Claim C8 witness: on the concrete reward-free genesis block the first
`reward_miner` call appends the reward transaction and the second call is the
identity. -/
theorem C8_witness :
    (Block.reward_miner digest0 merkel0 7 (Block.new_genesis digest0 0)).transactions
        = (Block.new_genesis digest0 0).transactions
            ++ [Transaction.reward_transaction 7] ∧
    Block.reward_miner digest0 merkel0 7
        (Block.reward_miner digest0 merkel0 7 (Block.new_genesis digest0 0))
      = Block.reward_miner digest0 merkel0 7 (Block.new_genesis digest0 0) := by
  constructor
  · exact ((C8_amended_reward_miner digest0 merkel0 7 0
      (Block.new_genesis digest0 0)).1 (by decide)).1
  · exact (C8_amended_reward_miner digest0 merkel0 7 0
      (Block.reward_miner digest0 merkel0 7 (Block.new_genesis digest0 0))).2.1
      (by decide)

/-- Claim C3: on a hash string of at least 8 hexadecimal characters and a
32-bit difficulty word, `verify_difficulty` returns `true` exactly when each
4-bit nibble (shifts 0, 4, ..., 28) of the big-endian value of the last 8 hex
characters is at most the corresponding nibble of the difficulty; in
particular the all-ones difficulty `0xFFFFFFFF` accepts every hash. -/
theorem C3_verify_difficulty_iff (h : String) (d : Nat) (hd : d < 2 ^ 32)
    (hlen : 8 ≤ h.data.length)
    (hhex : ∀ c ∈ h.data, (hexDigitVal c).isSome) :
    (verify_difficulty h d = some true ↔
      ∀ i ∈ [0, 4, 8, 12, 16, 20, 24, 28],
        (hexVal (h.data.drop (h.data.length - 8)) >>> i) % 16
          ≤ (d >>> i) % 16) ∧
    verify_difficulty h 0xffffffff = some true := by
  have hlen8 : (h.data.drop (h.data.length - 8)).length = 8 := by
    rw [List.length_drop]
    omega
  have hne : h.data.drop (h.data.length - 8) ≠ [] := by
    intro hnil
    rw [hnil] at hlen8
    simp at hlen8
  have hhex8 : ∀ c ∈ h.data.drop (h.data.length - 8), (hexDigitVal c).isSome :=
    fun c hc => hhex c (List.drop_subset _ _ hc)
  have hparse := from_str_radix_16_all_hex _ hne hhex8
  have hnot : ¬ (h.data.length < 8) := by omega
  constructor
  · unfold verify_difficulty
    rw [if_neg hnot]
    simp only [hparse, Option.some.injEq]
    rw [checkNibbles, List.all_eq_true]
    simp only [decide_eq_true_eq]
  · unfold verify_difficulty
    rw [if_neg hnot]
    simp only [hparse, checkNibbles_max]

/-- Claim C3 witness: the all-ones difficulty accepts the concrete hash
`"00000000"`; obtained by instantiating the claim's theorem. -/
theorem C3_witness : verify_difficulty "00000000" 0xffffffff = some true :=
  (C3_verify_difficulty_iff "00000000" 0 (by norm_num) (by decide)
    (by decide)).2

/-- Claim C9: `verify_difficulty` is monotone in the difficulty word — if
every nibble of `d'` is at least the corresponding nibble of `d` and a hash
passes at `d`, it also passes at `d'`. -/
theorem C9_verify_difficulty_monotone (h : String) (d d' : Nat)
    (hd : d < 2 ^ 32) (hd' : d' < 2 ^ 32)
    (hmono : ∀ i ∈ [0, 4, 8, 12, 16, 20, 24, 28],
      (d >>> i) % 16 ≤ (d' >>> i) % 16)
    (ht : verify_difficulty h d = some true) :
    verify_difficulty h d' = some true := by
  unfold verify_difficulty at ht ⊢
  by_cases hlen : h.data.length < 8
  · rw [if_pos hlen] at ht
    exact absurd ht (by simp)
  · rw [if_neg hlen] at ht ⊢
    rcases hp : from_str_radix_16 (h.data.drop (h.data.length - 8)) with _ | v
    · rw [hp] at ht
      exact absurd ht (by simp)
    · simp only [hp, Option.some.injEq] at ht ⊢
      rw [checkNibbles, List.all_eq_true] at ht ⊢
      intro i hi
      have h1 := ht i hi
      have h2 := hmono i hi
      simp only [decide_eq_true_eq] at h1 ⊢
      omega

/-- Claim C9 witness: monotonicity instantiated at the concrete hash
`"00000000"` from difficulty `0` up to difficulty `1`. -/
theorem C9_witness : verify_difficulty "00000000" 1 = some true :=
  C9_verify_difficulty_monotone "00000000" 0 1 (by norm_num) (by norm_num)
    (by decide) (by decide)

/-- Claim C10 counterexample: the claim says `verify_difficulty` returns a
boolean only when the input has at least 8 trailing valid hex characters.
But Rust's `u32::from_str_radix` also accepts an optional leading `'+'` sign:
on the 8-character input `"+1234567"`, whose characters are not 8 hex digits,
the function still parses and returns a boolean instead of panicking. -/
theorem C10_counterexample :
    (verify_difficulty "+1234567" 4294967295).isSome = true ∧
    (String.data "+1234567").length = 8 ∧
    ¬ ∀ c ∈ String.data "+1234567", (hexDigitVal c).isSome := by
  refine ⟨by decide, by decide, by decide⟩

/-- Claim C10 amended: `verify_difficulty` panics (slice-bound underflow) on
every string of fewer than 8 characters, and otherwise returns a boolean
exactly when `u32::from_str_radix` succeeds on the last 8 characters — i.e.
when they are 8 hex digits or a `'+'` followed by 7 hex digits; it panics on
the `unwrap` when that parse fails. -/
theorem C10_amended_panic_domain (h : String) (d : Nat) :
    (h.data.length < 8 → verify_difficulty h d = none) ∧
    (verify_difficulty h d).isSome
      = (decide (8 ≤ h.data.length)
          && (from_str_radix_16 (h.data.drop (h.data.length - 8))).isSome) := by
  constructor
  · intro hlen
    unfold verify_difficulty
    rw [if_pos hlen]
  · unfold verify_difficulty
    by_cases hlen : h.data.length < 8
    · have h8 : decide (8 ≤ h.data.length) = false := by
        simp only [decide_eq_false_iff_not]
        omega
      rw [if_pos hlen, h8, Bool.false_and]
      rfl
    · have h8 : decide (8 ≤ h.data.length) = true := by
        simp only [decide_eq_true_eq]
        omega
      rw [if_neg hlen, h8, Bool.true_and]
      rcases hp : from_str_radix_16 (h.data.drop (h.data.length - 8)) with _ | v
      · simp only [hp, Option.isSome_none]
      · simp only [hp, Option.isSome_some]

/-- Claim C10 witness: the 3-character string `"abc"` panics (no boolean),
and on `"+1234567"` the returned-boolean condition coincides with
`from_str_radix` succeeding on the last 8 characters. -/
theorem C10_witness :
    verify_difficulty "abc" 0 = none ∧
    (verify_difficulty "+1234567" 0).isSome
      = (decide (8 ≤ (String.data "+1234567").length)
          && (from_str_radix_16 ((String.data "+1234567").drop
              ((String.data "+1234567").length - 8))).isSome) :=
  ⟨(C10_amended_panic_domain "abc" 0).1 (by decide),
   (C10_amended_panic_domain "+1234567" 0).2⟩
